import Mathlib

/-!
Verification of the cross-fragment redaction engine in `scripts/redact.js`
(legal-doc-redactor).  The engine's strings are modelled as `List Char`;
the JavaScript string primitives it relies on (`substring`, `indexOf`,
`lastIndexOf`, `replace` with a string pattern, `split`/`join`, and the
two `<w:t>` tag regexes) are embedded below with JavaScript semantics
(`substring` clamps and swaps its arguments, `replace` rewrites only the
first occurrence, an empty needle is found at position 0, the global tag
regex scans left to right without overlap).
-/

set_option maxRecDepth 40000

/-- JavaScript `s.substring(a, b)`: both arguments are clamped to
`[0, s.length]` and swapped when out of order. -/
def jsSubstring (s : List Char) (a b : Int) : List Char :=
  let len : Int := s.length
  let a' := min (max a 0) len
  let b' := min (max b 0) len
  let lo := min a' b'
  let hi := max a' b'
  (s.drop lo.toNat).take (hi - lo).toNat

/-- JavaScript `s.substring(a)` (one-argument form). -/
def jsSubstringFrom (s : List Char) (a : Int) : List Char :=
  jsSubstring s a s.length

/-- JavaScript `hay.indexOf(needle)` for strings, as an `Option`
(`none` models the `-1` result).  An empty needle is found at 0. -/
def indexOf? : List Char → List Char → Option Nat
  | hay, needle =>
    if needle.isPrefixOf hay then some 0
    else
      match hay with
      | [] => none
      | _ :: t => (indexOf? t needle).map (· + 1)

/-- JavaScript `hay.includes(needle)`.  Note `hay.includes("")` is `true`. -/
def includesL (hay needle : List Char) : Bool :=
  (indexOf? hay needle).isSome

/-- JavaScript `hay.lastIndexOf(needle)` (`none` models `-1`). -/
def lastIndexOf? : List Char → List Char → Option Nat
  | [], needle => if needle.isPrefixOf ([] : List Char) then some 0 else none
  | c :: t, needle =>
    match lastIndexOf? t needle with
    | some k => some (k + 1)
    | none => if needle.isPrefixOf (c :: t) then some 0 else none

/-- JavaScript `s.replace(pat, rep)` with a string pattern: only the
first occurrence is rewritten; with `pat = ""` the replacement is
inserted in front. -/
def replaceFirst (s pat rep : List Char) : List Char :=
  match indexOf? s pat with
  | none => s
  | some i => s.take i ++ rep ++ s.drop (i + pat.length)

/-- `splitOnGo pat fuel s`: JavaScript `s.split(pat)` for a non-empty
`pat`, by repeatedly cutting at the leftmost occurrence.  `fuel`
bounds the recursion; `s.length + 1` always suffices. -/
def splitOnGo (pat : List Char) : Nat → List Char → List (List Char)
  | 0, s => [s]
  | fuel + 1, s =>
    match indexOf? s pat with
    | none => [s]
    | some i => s.take i :: splitOnGo pat fuel (s.drop (i + pat.length))

/-- JavaScript `s.split(pat).join(rep)` (used by the residual
single-fragment pass, redact.js line 51). -/
def jsSplitJoin (s pat rep : List Char) : List Char :=
  if pat.isEmpty then List.intercalate rep (s.map (fun c => [c]))
  else List.intercalate rep (splitOnGo pat (s.length + 1) s)

/-- A text leaf captured by the tag regex `/<w:t[^>]*>([^<]*)<\/w:t>/g`
(redact.js lines 67-81): the complete tag text, the inner content, and
the start/end character offsets in the markup string. -/
structure TextNode where
  fullMatch : List Char
  content : List Char
  startIndex : Nat
  endIndex : Nat
  deriving DecidableEq, Repr

/-- The node used when a JavaScript array access would be out of range. -/
def emptyTextNode : TextNode := ⟨[], [], 0, 0⟩

/-- A replacement rule `{original, replacement}`. -/
structure Rule where
  original : List Char
  replacement : List Char
  deriving DecidableEq, Repr

/-- A match recorded by `handleCrossTagReplacement` (redact.js lines
144-150).  `actualSpan` and `offsetInFirstNode` are integers because the
JavaScript arithmetic computing them is not clamped at zero. -/
structure CrossMatch where
  startNodeIndex : Nat
  actualSpan : Int
  offsetInFirstNode : Int
  original : List Char
  replacement : List Char
  deriving DecidableEq, Repr

/-- One attempt of the tag regex at the current scan position: on
success returns the opening tag, the content (`[^<]*`), and the total
matched length. -/
def tryTagAt (s : List Char) : Option (List Char × List Char × Nat) :=
  if ("<w:t".data).isPrefixOf s then
    let rest := s.drop 4
    match indexOf? rest ['>'] with
    | none => none
    | some k =>
      let openTag := s.take (4 + k + 1)
      let afterOpen := s.drop (4 + k + 1)
      let content := afterOpen.takeWhile (fun c => c ≠ '<')
      let afterContent := afterOpen.drop content.length
      if ("</w:t>".data).isPrefixOf afterContent then
        some (openTag, content, 4 + k + 1 + content.length + 6)
      else none
  else none

/-- Left-to-right, non-overlapping scan of the tag regex, recording each
match with its offsets (`pos` is the current absolute position). -/
def scanNodes : Nat → List Char → Nat → List TextNode
  | 0, _, _ => []
  | fuel + 1, s, pos =>
    match s with
    | [] => []
    | _ :: t =>
      match tryTagAt s with
      | some (openTag, content, len) =>
        ⟨openTag ++ content ++ "</w:t>".data, content, pos, pos + len⟩
          :: scanNodes fuel (s.drop len) (pos + len)
      | none => scanNodes fuel t (pos + 1)

/-- All matches of the global tag regex starting from `lastIndex`
(redact.js lines 67-81; the engine always resets `lastIndex` to 0
before scanning, line 72). -/
def tTagExecAll (xmlContent : List Char) (lastIndex : Nat) : List TextNode :=
  scanNodes xmlContent.length (xmlContent.drop lastIndex) lastIndex

/-- The `for (let j = 0; j < span; j++)` walk of redact.js lines
112-131: starting from `startAcc = endAcc = i`, determine which node
contains the match start and which contains the match end (with the
early `break` once the end node is found).  `remaining` counts the
loop iterations still to run. -/
def walkNodes (nodes : List TextNode) (i matchStart matchEnd : Nat) :
    Nat → Nat → Nat → Nat → Nat → Nat × Nat
  | 0, _, _, startAcc, endAcc => (startAcc, endAcc)
  | remaining + 1, j, charCount, startAcc, endAcc =>
    let nodeLen := (nodes.getD (i + j) emptyTextNode).content.length
    let nodeEnd := charCount + nodeLen
    let startAcc' := if charCount ≤ matchStart ∧ matchStart < nodeEnd then i + j else startAcc
    if charCount < matchEnd ∧ matchEnd ≤ nodeEnd then (startAcc', i + j)
    else
      let endAcc' := if charCount < matchEnd ∧ nodeEnd < matchEnd then i + j else endAcc
      walkNodes nodes i matchStart matchEnd remaining (j + 1) nodeEnd startAcc' endAcc'

/-- The concatenation of the contents of `span` consecutive nodes
starting at `i` (redact.js lines 94-97). -/
def combineContents (nodes : List TextNode) (i span : Nat) : List Char :=
  ((List.range span).map (fun j => (nodes.getD (i + j) emptyTextNode).content)).flatten

/-- The inner `for (const item of redactions)` loop of redact.js lines
100-161: find the first rule whose `original` occurs in the combined
window text and whose computed start node has not yet been claimed.
Rules whose start node is already claimed are skipped (the `break` at
line 158 sits inside the `processed` check at line 142). -/
def findRuleMatch (nodes : List TextNode) (processed : List Nat) (i span : Nat)
    (combined : List Char) : List Rule → Option CrossMatch
  | [] => none
  | item :: rest =>
    if includesL combined item.original then
      let matchStart := (indexOf? combined item.original).getD 0
      let walked := walkNodes nodes i matchStart (matchStart + item.original.length) span 0 0 i i
      let startNodeIndex := walked.1
      let endNodeIndex := walked.2
      let actualSpan : Int := (endNodeIndex : Int) - startNodeIndex + 1
      let offsetInFirstNode : Int := (matchStart : Int) -
        (((List.range (startNodeIndex - i)).map
          (fun j => ((nodes.getD (i + j) emptyTextNode).content.length : Int))).sum)
      if startNodeIndex ∈ processed then
        findRuleMatch nodes processed i span combined rest
      else
        some ⟨startNodeIndex, actualSpan, offsetInFirstNode, item.original, item.replacement⟩
    else findRuleMatch nodes processed i span combined rest

/-- The fragment indices a recorded match claims (redact.js lines
153-155: `for (let j = startNodeIndex; j < startNodeIndex + actualSpan; j++)`). -/
def claimedList (m : CrossMatch) : List Nat :=
  (List.range m.actualSpan.toNat).map (m.startNodeIndex + ·)

/-- The `for (let span = 1; span <= ...; span++)` loop of redact.js
lines 93-165, threading the claimed-index set and the recorded matches.
After a match is recorded its claimed indices are added, and the span
loop stops once the window start `i` itself is claimed (line 164). -/
def spanScan (nodes : List TextNode) (rules : List Rule) (i : Nat) :
    Nat → Nat → List Nat → List CrossMatch → List Nat × List CrossMatch
  | 0, _, processed, ms => (processed, ms)
  | remaining + 1, span, processed, ms =>
    let combined := combineContents nodes i span
    match findRuleMatch nodes processed i span combined rules with
    | some m =>
      let processed' := processed ++ claimedList m
      let ms' := ms ++ [m]
      if i ∈ processed' then (processed', ms')
      else spanScan nodes rules i remaining (span + 1) processed' ms'
    | none =>
      if i ∈ processed then (processed, ms)
      else spanScan nodes rules i remaining (span + 1) processed ms

/-- The outer `for (let i = 0; i < textNodes.length; i++)` loop of
redact.js lines 88-166; claimed window starts are skipped (line 90). -/
def outerScan (nodes : List TextNode) (rules : List Rule) :
    Nat → Nat → List Nat → List CrossMatch → List Nat × List CrossMatch
  | 0, _, processed, ms => (processed, ms)
  | remaining + 1, i, processed, ms =>
    if i ∈ processed then outerScan nodes rules remaining (i + 1) processed ms
    else
      let maxSpan := min 5 (nodes.length - i)
      let stepped := spanScan nodes rules i maxSpan 1 processed ms
      outerScan nodes rules remaining (i + 1) stepped.1 stepped.2

/-- The list of matches one pass of `handleCrossTagReplacement`
records for a markup string (redact.js lines 65-166). -/
def handleCrossTagMatches (xmlContent : List Char) (redactions : List Rule) :
    List CrossMatch :=
  let textNodes := tTagExecAll xmlContent 0
  (outerScan textNodes redactions textNodes.length 0 [] []).2

/-- The structural-block boundary search of redact.js lines 228-252:
scan backward from the first spanned node for `<w:r>` (falling back to
the node's own start, line 231) and forward from the last spanned node
for `</w:r>` (falling back to offset 0 past the node's end, line 235);
the `betweenRuns` re-check of lines 242-252 recomputes the end when the
match crosses several runs.  Returns `(blockStart, blockEnd)`. -/
def crossBlockBoundaries (xmlContent : List Char) (firstTNode lastTNode : TextNode) :
    Int × Int :=
  let beforeFirstT := jsSubstring xmlContent 0 firstTNode.startIndex
  let firstRStart : Int :=
    match lastIndexOf? beforeFirstT "<w:r>".data with
    | none => firstTNode.startIndex
    | some k => k
  let afterLastT := jsSubstringFrom xmlContent lastTNode.endIndex
  let firstREnd : Nat :=
    match indexOf? afterLastT "</w:r>".data with
    | none => 0
    | some k => k
  let firstREndPos : Int := (lastTNode.endIndex : Int) + firstREnd + 6
  let betweenRuns := jsSubstring xmlContent firstREndPos lastTNode.endIndex
  if includesL betweenRuns "<w:r>".data && includesL betweenRuns "</w:r>".data then
    let _lastRStart : Option Nat :=
      lastIndexOf? (jsSubstring xmlContent 0 lastTNode.startIndex) "<w:r>".data
    let afterLastT2 := jsSubstringFrom xmlContent lastTNode.endIndex
    let lastREnd : Nat :=
      match indexOf? afterLastT2 "</w:r>".data with
      | none => 0
      | some k => k
    (firstRStart, (lastTNode.endIndex : Int) + lastREnd + 6)
  else (firstRStart, firstREndPos)

/-- The `xmlBlock.replace(tPattern, (match, content) => ...)` rewrite of
redact.js lines 260-292: scan the block for tag matches; locate each via
`xmlBlock.indexOf(match)` (the code's first-occurrence lookup); rewrite
the first target node to its pre-match text plus the replacement and
clear every later target node, threading the mutable `nodeIndex`. -/
def cbScan (xmlBlock : List Char) (blockStart : Int) (firstTNode lastTNode : TextNode)
    (tSpan offsetInFirstNode : Int) (replacement : List Char) :
    Nat → List Char → Int → List Char
  | 0, _, _ => []
  | fuel + 1, s, nodeIndex =>
    match s with
    | [] => []
    | c :: t =>
      match tryTagAt s with
      | none => c :: cbScan xmlBlock blockStart firstTNode lastTNode tSpan
          offsetInFirstNode replacement fuel t nodeIndex
      | some (openTag, content, len) =>
        let fm := openTag ++ content ++ "</w:t>".data
        match indexOf? xmlBlock fm with
        | none => fm ++ cbScan xmlBlock blockStart firstTNode lastTNode tSpan
            offsetInFirstNode replacement fuel (s.drop len) nodeIndex
        | some p =>
          let absolutePos : Int := blockStart + p
          let isFirstNode :=
            (firstTNode.startIndex : Int) ≤ absolutePos ∧ absolutePos < (firstTNode.endIndex : Int)
          let isLastNode :=
            (lastTNode.startIndex : Int) ≤ absolutePos ∧ absolutePos < (lastTNode.endIndex : Int)
          let isMiddleNode := ¬isFirstNode ∧ ¬isLastNode ∧ 0 < nodeIndex ∧ nodeIndex < tSpan - 1
          if isFirstNode ∨ isLastNode ∨ isMiddleNode then
            if nodeIndex = 0 then
              let pre := jsSubstring firstTNode.content 0 offsetInFirstNode
              replaceFirst fm content (pre ++ replacement) ++
                cbScan xmlBlock blockStart firstTNode lastTNode tSpan
                  offsetInFirstNode replacement fuel (s.drop len) (nodeIndex + 1)
            else
              replaceFirst fm content [] ++
                cbScan xmlBlock blockStart firstTNode lastTNode tSpan
                  offsetInFirstNode replacement fuel (s.drop len) (nodeIndex + 1)
          else
            fm ++ cbScan xmlBlock blockStart firstTNode lastTNode tSpan
              offsetInFirstNode replacement fuel (s.drop len) nodeIndex

/-- The block rewrite applied to an extracted block (redact.js line 264). -/
def rewriteTargetLeaves (xmlBlock : List Char) (blockStart : Int)
    (firstTNode lastTNode : TextNode) (tSpan offsetInFirstNode : Int)
    (replacement : List Char) : List Char :=
  cbScan xmlBlock blockStart firstTNode lastTNode tSpan offsetInFirstNode replacement
    xmlBlock.length xmlBlock 0

/-- `performCrossTagReplace` (redact.js lines 194-295).  `tSpan = 1`
rewrites the single leaf in place via `fullMatch.replace(content, ...)`
(lines 199-216); otherwise the enclosing block is extracted with
`crossBlockBoundaries`, rewritten with `rewriteTargetLeaves`, and
spliced back (lines 218-294). -/
def performCrossTagReplace (xmlContent : List Char) (textNodes : List TextNode)
    (startIndex : Nat) (tSpan offsetInFirstNode : Int)
    (original replacement : List Char) : List Char :=
  let firstTNode := textNodes.getD startIndex emptyTextNode
  let lastTNode := textNodes.getD ((startIndex : Int) + tSpan - 1).toNat emptyTextNode
  if tSpan = 1 then
    let node := firstTNode
    let nodeContent := node.content
    if offsetInFirstNode = 0 then
      let newContent := replaceFirst nodeContent original replacement
      let newNodeTag := replaceFirst node.fullMatch nodeContent newContent
      jsSubstring xmlContent 0 node.startIndex ++ newNodeTag ++
        jsSubstringFrom xmlContent node.endIndex
    else
      let pre := jsSubstring nodeContent 0 offsetInFirstNode
      let suf := jsSubstringFrom nodeContent (offsetInFirstNode + original.length)
      let newContent := pre ++ replacement ++ suf
      let newNodeTag := replaceFirst node.fullMatch nodeContent newContent
      jsSubstring xmlContent 0 node.startIndex ++ newNodeTag ++
        jsSubstringFrom xmlContent node.endIndex
  else
    let _fullContent :=
      ((List.range tSpan.toNat).map
        (fun j => (textNodes.getD (startIndex + j) emptyTextNode).content)).flatten
    let _newFullContent := replaceFirst _fullContent original replacement
    let bounds := crossBlockBoundaries xmlContent firstTNode lastTNode
    let blockStart := bounds.1
    let blockEnd := bounds.2
    let xmlBlock := jsSubstring xmlContent blockStart blockEnd
    let newXmlBlock := rewriteTargetLeaves xmlBlock blockStart firstTNode lastTNode
      tSpan offsetInFirstNode replacement
    jsSubstring xmlContent 0 blockStart ++ newXmlBlock ++
      jsSubstringFrom xmlContent blockEnd

/-- One pass of `handleCrossTagReplacement` (redact.js lines 65-181),
parameterised by the incoming `lastIndex` of the shared tag regex,
which the function resets to 0 before scanning (line 72).  The recorded
matches are spliced from last to first (lines 173-178). -/
def handleCrossTagReplacementP (xmlContent : List Char) (redactions : List Rule)
    (_patternLastIndex : Nat) : List Char :=
  let textNodes := tTagExecAll xmlContent 0
  let ms := (outerScan textNodes redactions textNodes.length 0 [] []).2
  if ms.isEmpty then xmlContent
  else
    ms.reverse.foldl
      (fun res m => performCrossTagReplace res textNodes m.startNodeIndex
        m.actualSpan m.offsetInFirstNode m.original m.replacement)
      xmlContent

/-- `handleCrossTagReplacement` as called by the engine. -/
def handleCrossTagReplacement (xmlContent : List Char) (redactions : List Rule) :
    List Char :=
  handleCrossTagReplacementP xmlContent redactions 0

/-- The `do ... while (hasCrossTagMatch && iteration < maxIterations)`
driver of redact.js lines 28-45, with `maxIterations = 100`.  Returns
the final markup, the number of passes run, and whether the loop
stopped because the last pass left the length unchanged.  The fuel is
only a structural bound; the engine calls it with fuel 100, which the
`iteration < 100` guard never exceeds. -/
def crossTagGo (redactions : List Rule) : Nat → List Char → Nat → List Char × Nat × Bool
  | 0, result, iteration => (result, iteration, false)
  | fuel + 1, result, iteration =>
    let beforeLength := result.length
    let result' := handleCrossTagReplacement result redactions
    let afterLength := result'.length
    let hasCrossTagMatch := beforeLength ≠ afterLength
    let iteration' := iteration + 1
    if hasCrossTagMatch ∧ iteration' < 100 then
      crossTagGo redactions fuel result' iteration'
    else (result', iteration', decide ¬hasCrossTagMatch)

/-- The cross-tag fixpoint loop of `replaceInXML` (redact.js lines 28-45). -/
def crossTagLoop (xmlContent : List Char) (redactions : List Rule) :
    List Char × Nat × Bool :=
  crossTagGo redactions 100 xmlContent 0

/-- One step of the residual single-fragment pass for one rule: the
`result.replace(/(<w:t[^>]*>)([^<]*?)(<\/w:t>)/g, ...)` of redact.js
lines 50-53, replacing every occurrence of `original` inside each leaf
content via `content.split(original).join(replacement)`. -/
def residualScan (original replacement : List Char) : Nat → List Char → List Char
  | 0, _ => []
  | fuel + 1, s =>
    match s with
    | [] => []
    | c :: t =>
      match tryTagAt s with
      | none => c :: residualScan original replacement fuel t
      | some (openTag, content, len) =>
        openTag ++ jsSplitJoin content original replacement ++ "</w:t>".data ++
          residualScan original replacement fuel (s.drop len)

/-- The residual single-fragment pass (redact.js lines 48-54): every
rule is applied, in order, as a per-leaf split/join replacement. -/
def residualPass (xmlContent : List Char) (redactions : List Rule) : List Char :=
  redactions.foldl (fun res item => residualScan item.original item.replacement res.length res)
    xmlContent

/-- `replaceInXML` (redact.js lines 26-57): the cross-tag loop followed
by the residual single-fragment pass. -/
def replaceInXML (xmlContent : List Char) (redactions : List Rule) : List Char :=
  residualPass (crossTagLoop xmlContent redactions).1 redactions

/-- Stable insertion of a rule behind every rule of equal or greater
`original` length: models the stable JavaScript
`sort((a, b) => b.original.length - a.original.length)`. -/
def insertByLenDesc : List Rule → Rule → List Rule
  | [], x => [x]
  | y :: t, x =>
    if y.original.length < x.original.length then x :: y :: t
    else y :: insertByLenDesc t x

/-- The `sortedRedactions` of redact.js line 308: the caller-supplied
rules stably sorted by descending `original` length. -/
def sortedByOriginalLengthDesc (redactions : List Rule) : List Rule :=
  redactions.foldl insertByLenDesc []

/-- How `processDocx` treats the main document part (redact.js line
317): `replaceInXML` over the sorted rules. -/
def processDocxDocumentPart (redactions : List Rule) (xmlContent : List Char) : List Char :=
  replaceInXML xmlContent (sortedByOriginalLengthDesc redactions)

/-- How `processDocx` treats a header or footer part (redact.js line
327): `replaceInXML` over the caller-supplied, unsorted rules. -/
def processDocxHeaderFooterPart (redactions : List Rule) (xmlContent : List Char) : List Char :=
  replaceInXML xmlContent redactions

/-- Count of the (non-overlapping-marker) occurrences of `pat` in `s`,
used to state balance of `<w:r>`/`</w:r>` structural markers. -/
def countOcc : List Char → List Char → Nat
  | [], _ => 0
  | c :: t, pat => (if pat.isPrefixOf (c :: t) then 1 else 0) + countOcc t pat

/-- A markup string has balanced run markers when it contains as many
`<w:r>` openers as `</w:r>` closers. -/
def balancedRunMarkers (s : List Char) : Bool :=
  countOcc s "<w:r>".data == countOcc s "</w:r>".data

/-- Whether the fragment ranges of two recorded matches overlap. -/
def rangesOverlap (a b : CrossMatch) : Bool :=
  (claimedList a).any (fun k => (claimedList b).contains k)

/-- Whether the fragment ranges of the recorded matches are pairwise
disjoint. -/
def pairwiseRangesDisjoint : List CrossMatch → Bool
  | [] => true
  | m :: rest => rest.all (fun m' => !(rangesOverlap m m')) && pairwiseRangesDisjoint rest

/-- The leaf contents the residual pass's tag regex sees in `s`. -/
def leafContentsGo : Nat → List Char → List (List Char)
  | 0, _ => []
  | fuel + 1, s =>
    match s with
    | [] => []
    | _ :: t =>
      match tryTagAt s with
      | none => leafContentsGo fuel t
      | some (_, content, len) => content :: leafContentsGo fuel (s.drop len)

/-- All leaf contents of a markup string. -/
def leafContents (s : List Char) : List (List Char) :=
  leafContentsGo s.length s

/-- Invariant threaded through the matcher loops: every recorded
match's claimed fragment indices are in the `processed` set, and no
match starts inside an earlier match's claimed range. -/
def MatchesInv (processed : List Nat) (ms : List CrossMatch) : Prop :=
  (∀ m ∈ ms, ∀ x ∈ claimedList m, x ∈ processed) ∧
  ms.Pairwise (fun a b => b.startNodeIndex ∉ claimedList a)

/-- C1, counterexample: on the markup
`<w:t>a</w:t><w:t>b</w:t><w:t>c</w:t><w:t>d</w:t>` with the rules
`bc → X` and `abcd → Y`, one pass of the matcher records a match
claiming fragments 1-2 and then a second match claiming fragments 0-3,
so the fragment index ranges of the two emitted matches intersect and a
fragment already claimed by the earlier match participates in the later
match's span. -/
theorem crossMatches_ranges_intersect :
    pairwiseRangesDisjoint
      (handleCrossTagMatches
        "<w:t>a</w:t><w:t>b</w:t><w:t>c</w:t><w:t>d</w:t>".data
        [⟨"bc".data, "X".data⟩, ⟨"abcd".data, "Y".data⟩]) = false := by
  decide

/-- C2: on `<w:r><w:t>b</w:t><w:t>a</w:t><w:t>b</w:t></w:r>` with the
rule `ab → R`, the pass records the multi-fragment match spanning
leaves 1-2, but the splice leaves the last spanned leaf's content `b`
in place instead of clearing it: the block rewrite locates each tag via
`xmlBlock.indexOf(match)`, and the last spanned tag `<w:t>b</w:t>` is
textually identical to the unrelated first leaf, so its position is
misidentified and it is not treated as a target node. -/
theorem crossTagReplace_duplicate_leaf_not_cleared :
    handleCrossTagReplacement
      "<w:r><w:t>b</w:t><w:t>a</w:t><w:t>b</w:t></w:r>".data
      [⟨"ab".data, "R".data⟩] =
    "<w:r><w:t>b</w:t><w:t>R</w:t><w:t>b</w:t></w:r>".data := by
  decide

/-- C3: for the single-fragment match of rule `t → X` in
`<w:t>t</w:t>` (span 1, offset 0), the splice computes the new tag with
`fullMatch.replace(content, newContent)`, which rewrites the first
occurrence of the content string `t` — the one inside the opening tag
markup `<w:t` — so the engine returns `<w:X>t</w:t>` instead of the
specified `<w:t>X</w:t>`. -/
theorem singleFragment_replace_corrupts_tag :
    replaceInXML "<w:t>t</w:t>".data [⟨"t".data, "X".data⟩] =
      "<w:X>t</w:t>".data := by
  decide

/-- C4: there is no guard for an empty `original`: since
`combinedText.includes("")` is always true, the matcher emits a match
for the empty rule on `<w:t>a</w:t>`, and the pass alters the markup
(the replacement is inserted in front of the leaf content). -/
theorem emptyOriginal_matches_and_alters :
    handleCrossTagMatches "<w:t>a</w:t>".data [⟨[], "X".data⟩] ≠ [] ∧
    handleCrossTagReplacement "<w:t>a</w:t>".data [⟨[], "X".data⟩] ≠
      "<w:t>a</w:t>".data := by
  constructor
  · decide
  · decide

/-- C5: `processDocx` sorts the rules by descending `original` length
for the main document part only (line 317 uses `sortedRedactions`), but
passes the caller-supplied, unsorted list for header and footer parts
(line 327 uses `redactions`).  With caller order `公司 → A`,
`示例公司 → B`, the main part of `<w:t>示例公司</w:t>` becomes `B`, while a
header part becomes `示例A` — the shorter substring rule wins there,
contrary to the longest-rule-first guarantee. -/
theorem headerFooter_rules_not_sorted :
    processDocxDocumentPart
      [⟨"公司".data, "A".data⟩, ⟨"示例公司".data, "B".data⟩]
      "<w:t>示例公司</w:t>".data = "<w:t>B</w:t>".data ∧
    processDocxHeaderFooterPart
      [⟨"公司".data, "A".data⟩, ⟨"示例公司".data, "B".data⟩]
      "<w:t>示例公司</w:t>".data = "<w:t>示例A</w:t>".data := by
  constructor
  · decide
  · decide

/-- C6, counterexample: with the single rule `ab → a` on
`<w:t>abb</w:t>`, one residual pass produces `<w:t>ab</w:t>` (the
replacement rejoins with the remaining text to recreate the needle),
and a second residual pass produces `<w:t>a</w:t>`, so running the
residual pass twice differs from running it once. -/
theorem residualPass_not_idempotent :
    residualPass (residualPass "<w:t>abb</w:t>".data [⟨"ab".data, "a".data⟩])
        [⟨"ab".data, "a".data⟩] ≠
      residualPass "<w:t>abb</w:t>".data [⟨"ab".data, "a".data⟩] := by
  decide

/-- C9: on the balanced markup `<w:t>w:t</w:t>` (no run markers at
all), the rule `w:t → w:r` makes the single-fragment splice rewrite the
first occurrence of the content string `w:t` — the one inside the
opening tag — producing `<w:r>w:t</w:t>`, which contains an opening run
marker with no matching closer: replaceInXML turns a balanced markup
string into an unbalanced one. -/
theorem replaceInXML_breaks_marker_balance :
    balancedRunMarkers "<w:t>w:t</w:t>".data = true ∧
    replaceInXML "<w:t>w:t</w:t>".data [⟨"w:t".data, "w:r".data⟩] =
      "<w:r>w:t</w:t>".data ∧
    balancedRunMarkers "<w:r>w:t</w:t>".data = false := by
  refine ⟨by decide, by decide, by decide⟩

/-- C10: `replaceInXML` is deterministic — two invocations on the same
markup and rule list produce the same output — and the tag pattern's
incoming `lastIndex` does not influence a pass, because
`handleCrossTagReplacement` resets it to 0 before scanning. -/
theorem replaceInXML_deterministic (xmlContent : List Char) (redactions : List Rule)
    (lastIndex1 lastIndex2 : Nat) :
    handleCrossTagReplacementP xmlContent redactions lastIndex1 =
      handleCrossTagReplacementP xmlContent redactions lastIndex2 ∧
    replaceInXML xmlContent redactions = replaceInXML xmlContent redactions :=
  ⟨rfl, rfl⟩

theorem crossTagGo_bound (redactions : List Rule) :
    ∀ fuel iteration result, iteration < 100 → 100 ≤ iteration + fuel →
      (crossTagGo redactions fuel result iteration).2.1 ≤ 100 ∧
      ((crossTagGo redactions fuel result iteration).2.2 = true ∨
        (crossTagGo redactions fuel result iteration).2.1 = 100) := by
  intro fuel
  induction fuel with
  | zero => intro it result h1 h2; omega
  | succ n ih =>
    intro it result h1 h2
    simp only [crossTagGo]
    split
    · next h => exact ih (it + 1) _ h.2 (by omega)
    · next h =>
      refine ⟨by simp; omega, ?_⟩
      by_cases hm : result.length ≠ (handleCrossTagReplacement result redactions).length
      · right
        have : ¬ (it + 1 < 100) := fun hlt => h ⟨hm, hlt⟩
        simpa using (by omega : it + 1 = 100)
      · left
        simp [hm]

/-- C7: the iteration driver reaches DONE exactly when a pass produces
no change in markup length (`.2.2 = true` records that the final pass
left the length unchanged) or the iteration counter reaches the fixed
cap of 100; hence for every finite rule list and input markup at most
100 cross-tag passes run, after which the residual single-fragment pass
is applied once to the loop's result. -/
theorem replaceInXML_iteration_cap (xmlContent : List Char) (redactions : List Rule) :
    (crossTagLoop xmlContent redactions).2.1 ≤ 100 ∧
    ((crossTagLoop xmlContent redactions).2.2 = true ∨
      (crossTagLoop xmlContent redactions).2.1 = 100) ∧
    replaceInXML xmlContent redactions =
      residualPass (crossTagLoop xmlContent redactions).1 redactions :=
  ⟨(crossTagGo_bound redactions 100 0 xmlContent (by omega) (by omega)).1,
   (crossTagGo_bound redactions 100 0 xmlContent (by omega) (by omega)).2, rfl⟩

-- helper: takeWhile ++ drop of its length reconstructs the list
theorem takeWhile_append_drop_len (p : Char → Bool) :
    ∀ l : List Char, l.takeWhile p ++ l.drop (l.takeWhile p).length = l := by
  intro l
  induction l with
  | nil => rfl
  | cons c t ih =>
    by_cases hp : p c
    · simp [List.takeWhile_cons, hp, ih]
    · simp [List.takeWhile_cons, hp]

-- helper: isPrefixOf reconstructs
theorem eq_append_drop_of_isPrefixOf :
    ∀ (p l : List Char), p.isPrefixOf l = true → l = p ++ l.drop p.length := by
  intro p
  induction p with
  | nil => intro l _; simp
  | cons a p' ih =>
    intro l h
    cases l with
    | nil => simp [List.isPrefixOf] at h
    | cons b t =>
      simp only [List.isPrefixOf, Bool.and_eq_true, beq_iff_eq] at h
      obtain ⟨rfl, h2⟩ := h
      simpa using ih t h2

-- tryTagAt decomposition
theorem tryTagAt_decomp (s openTag content : List Char) (len : Nat)
    (h : tryTagAt s = some (openTag, content, len)) :
    s = openTag ++ content ++ "</w:t>".data ++ s.drop len ∧ 0 < len := by
  unfold tryTagAt at h
  split at h
  case isFalse => exact absurd h (by simp)
  case isTrue hpre =>
    cases hidx : indexOf? (s.drop 4) ['>'] with
    | none =>
      simp only [hidx] at h
      exact absurd h (by simp)
    | some k =>
      simp only [hidx] at h
      split at h
      case isFalse => exact absurd h (by simp)
      case isTrue hclose =>
        simp only [Option.some.injEq, Prod.mk.injEq] at h
        obtain ⟨rfl, rfl, rfl⟩ := h
        refine ⟨?_, by omega⟩
        have hA := takeWhile_append_drop_len (fun c => decide (c ≠ '<')) (s.drop (4 + k + 1))
        have hB : (s.drop (4 + k + 1)).drop
              (List.takeWhile (fun c => decide (c ≠ '<')) (s.drop (4 + k + 1))).length =
            "</w:t>".data ++ ((s.drop (4 + k + 1)).drop
              (List.takeWhile (fun c => decide (c ≠ '<')) (s.drop (4 + k + 1))).length).drop 6 :=
          eq_append_drop_of_isPrefixOf _ _ hclose
        have hC : ((s.drop (4 + k + 1)).drop
              (List.takeWhile (fun c => decide (c ≠ '<')) (s.drop (4 + k + 1))).length).drop 6 =
            s.drop (4 + k + 1 +
              (List.takeWhile (fun c => decide (c ≠ '<')) (s.drop (4 + k + 1))).length + 6) := by
          rw [List.drop_drop, List.drop_drop]
          congr 1
        have key : List.takeWhile (fun c => decide (c ≠ '<')) (s.drop (4 + k + 1)) ++
            ("</w:t>".data ++ s.drop (4 + k + 1 +
              (List.takeWhile (fun c => decide (c ≠ '<')) (s.drop (4 + k + 1))).length + 6)) =
            s.drop (4 + k + 1) := by
          rw [← hC, ← hB]
          exact hA
        conv_lhs => rw [← List.take_append_drop (4 + k + 1) s, ← key]
        simp [List.append_assoc]

theorem jsSplitJoin_of_not_includes (c o r : List Char) (h : includesL c o = false) :
    jsSplitJoin c o r = c := by
  have ho : o ≠ [] := by
    intro rfl'
    subst rfl'
    simp [includesL, indexOf?, List.isPrefixOf] at h
    cases c <;> simp_all [indexOf?, List.isPrefixOf]
  have hidx : indexOf? c o = none := by
    cases hx : indexOf? c o with
    | none => rfl
    | some k => simp [includesL, hx] at h
  unfold jsSplitJoin
  rw [if_neg (by simpa using ho)]
  rw [show c.length + 1 = (c.length + 1 - 1) + 1 by omega]
  unfold splitOnGo
  rw [hidx]
  simp [List.intercalate]

theorem residualScan_id (o r : List Char) :
    ∀ fuel s, s.length ≤ fuel →
      (∀ c ∈ leafContentsGo fuel s, includesL c o = false) →
      residualScan o r fuel s = s := by
  intro fuel
  induction fuel with
  | zero =>
    intro s hlen _
    cases s with
    | nil => rfl
    | cons c t => simp at hlen
  | succ n ih =>
    intro s hlen hc
    cases s with
    | nil => rfl
    | cons c t =>
      simp only [residualScan]
      cases htag : tryTagAt (c :: t) with
      | none =>
        have hc' : ∀ x ∈ leafContentsGo n t, includesL x o = false := by
          intro x hx
          exact hc x (by simp [leafContentsGo, htag, hx])
        rw [ih t (by simp at hlen ⊢; omega) hc']
      | some v =>
        obtain ⟨openTag, content, len⟩ := v
        obtain ⟨hdecomp, hlenpos⟩ := tryTagAt_decomp _ _ _ _ htag
        have hcontent : includesL content o = false :=
          hc content (by simp [leafContentsGo, htag])
        have hrest : ∀ x ∈ leafContentsGo n ((c :: t).drop len), includesL x o = false := by
          intro x hx
          refine hc x ?_
          simp [leafContentsGo, htag]
          right
          exact hx
        have hlen' : ((c :: t).drop len).length ≤ n := by
          simp only [List.length_drop]
          simp at hlen ⊢
          omega
        have hdecomp' : c :: t =
            openTag ++ content ++ ['<', '/', 'w', ':', 't', '>'] ++ (c :: t).drop len := hdecomp
        dsimp only
        rw [jsSplitJoin_of_not_includes _ _ _ hcontent, ih _ hlen' hrest]
        conv_rhs => rw [hdecomp']

/-- C6, amended: the residual single-fragment pass is idempotent
provided the first run was complete — that is, no leaf content of its
output still contains any rule's original.  (Unconditional idempotence
fails: see the counterexample, where a replacement rejoins with
adjacent text to recreate a rule's original.) -/
theorem residualPass_complete_idempotent (xmlContent : List Char) (redactions : List Rule)
    (hcomplete : ∀ item ∈ redactions,
      ∀ c ∈ leafContents (residualPass xmlContent redactions),
        includesL c item.original = false) :
    residualPass (residualPass xmlContent redactions) redactions =
      residualPass xmlContent redactions := by
  suffices h : ∀ (rs : List Rule) (y : List Char),
      (∀ item ∈ rs, ∀ c ∈ leafContents y, includesL c item.original = false) →
      residualPass y rs = y from
    h redactions (residualPass xmlContent redactions) hcomplete
  intro rs
  induction rs with
  | nil => intro y _; rfl
  | cons item rest ih =>
    intro y hy
    have h1 : residualScan item.original item.replacement y.length y = y :=
      residualScan_id _ _ _ _ (le_refl _) (hy item (by simp))
    have h2 : residualPass y (item :: rest) = residualPass y rest := by
      simp only [residualPass, List.foldl_cons, h1]
    rw [h2]
    exact ih y (fun it hit => hy it (by simp [hit]))

/-- C6, witness: for the rule `ab → X` on `<w:t>abb</w:t>` the first
residual pass gives `<w:t>Xb</w:t>`, whose leaf content contains no
rule original, and the amended idempotence theorem applies. -/
theorem residualPass_complete_idempotent_witness :
    (∀ item ∈ [Rule.mk "ab".data "X".data],
      ∀ c ∈ leafContents (residualPass "<w:t>abb</w:t>".data [Rule.mk "ab".data "X".data]),
        includesL c item.original = false) ∧
    residualPass (residualPass "<w:t>abb</w:t>".data [Rule.mk "ab".data "X".data])
        [Rule.mk "ab".data "X".data] =
      residualPass "<w:t>abb</w:t>".data [Rule.mk "ab".data "X".data] :=
  ⟨by decide, residualPass_complete_idempotent _ _ (by decide)⟩

theorem findRuleMatch_start_not_processed
    {nodes : List TextNode} {processed : List Nat} {i span : Nat}
    {combined : List Char} {m : CrossMatch} :
    ∀ {rules : List Rule},
      findRuleMatch nodes processed i span combined rules = some m →
      m.startNodeIndex ∉ processed := by
  intro rules
  induction rules with
  | nil => intro h; simp [findRuleMatch] at h
  | cons item rest ih =>
    intro h
    simp only [findRuleMatch] at h
    split at h
    · split at h
      · exact ih h
      · next hnot =>
        simp only [Option.some.injEq] at h
        subst h
        exact hnot
    · exact ih h

theorem spanScan_inv (nodes : List TextNode) (rules : List Rule) (i : Nat) :
    ∀ (remaining span : Nat) (processed : List Nat) (ms : List CrossMatch),
      MatchesInv processed ms →
      MatchesInv (spanScan nodes rules i remaining span processed ms).1
        (spanScan nodes rules i remaining span processed ms).2 := by
  intro remaining
  induction remaining with
  | zero => intro span processed ms h; simpa [spanScan] using h
  | succ n ih =>
    intro span processed ms h
    cases hfind : findRuleMatch nodes processed i span (combineContents nodes i span) rules with
    | none =>
      simp only [spanScan, hfind]
      split
      · exact h
      · exact ih _ _ _ h
    | some m =>
      have hstart := findRuleMatch_start_not_processed hfind
      have h' : MatchesInv (processed ++ claimedList m) (ms ++ [m]) := by
        constructor
        · intro m' hm' x hx
          rcases List.mem_append.mp hm' with h1 | h1
          · exact List.mem_append_left _ (h.1 m' h1 x hx)
          · have : m' = m := by simpa using h1
            subst this
            exact List.mem_append_right _ hx
        · rw [List.pairwise_append]
          refine ⟨h.2, by simp, ?_⟩
          intro a ha b hb
          have : b = m := by simpa using hb
          subst this
          intro hmem
          exact hstart (h.1 a ha _ hmem)
      simp only [spanScan, hfind]
      split
      · exact h'
      · exact ih _ _ _ h'

theorem outerScan_inv (nodes : List TextNode) (rules : List Rule) :
    ∀ (remaining i : Nat) (processed : List Nat) (ms : List CrossMatch),
      MatchesInv processed ms →
      MatchesInv (outerScan nodes rules remaining i processed ms).1
        (outerScan nodes rules remaining i processed ms).2 := by
  intro remaining
  induction remaining with
  | zero => intro i processed ms h; simpa [outerScan] using h
  | succ n ih =>
    intro i processed ms h
    simp only [outerScan]
    split
    · exact ih _ _ _ h
    · exact ih _ _ _ (spanScan_inv nodes rules i _ _ _ _ h)

/-- C1, amended: within one pass, no emitted match's start fragment
lies in the fragment range claimed by an earlier match of the same pass
(the matcher refuses to record a match whose start node is already in
the `processed` set, and every recorded match's claimed range is added
to that set).  Full range-disjointness, as originally claimed, is
refuted by the counterexample. -/
theorem handleCrossTagMatches_start_unclaimed (xmlContent : List Char) (redactions : List Rule) :
    (handleCrossTagMatches xmlContent redactions).Pairwise
      (fun a b => b.startNodeIndex ∉ claimedList a) :=
  (outerScan_inv (tTagExecAll xmlContent 0) redactions
    (tTagExecAll xmlContent 0).length 0 [] [] ⟨by simp, by simp⟩).2

theorem isPrefixOf_of_take :
    ∀ (p l : List Char) (n : Nat), p.isPrefixOf (l.take n) = true → p.isPrefixOf l = true := by
  intro p
  induction p with
  | nil => intro l n _; simp [List.isPrefixOf]
  | cons a p' ih =>
    intro l n h
    cases l with
    | nil => simp at h
    | cons b t =>
      cases n with
      | zero => simp [List.isPrefixOf] at h
      | succ n' =>
        simp only [List.take_succ_cons, List.isPrefixOf, Bool.and_eq_true] at h ⊢
        exact ⟨h.1, ih t n' h.2⟩

theorem indexOf?_take_none :
    ∀ (l : List Char) (p : List Char) (n : Nat),
      indexOf? l p = none → indexOf? (l.take n) p = none := by
  intro l
  induction l with
  | nil => intro p n h; simp only [List.take_nil]; exact h
  | cons c t ih =>
    intro p n h
    unfold indexOf? at h
    split at h
    · exact absurd h (by simp)
    · next hpre =>
      have ht : indexOf? t p = none := by
        dsimp only at h
        simpa using h
      cases n with
      | zero =>
        unfold indexOf?
        split
        · next hp =>
          exact absurd (isPrefixOf_of_take p (c :: t) 0 hp) (by simp [hpre])
        · rfl
      | succ n' =>
        unfold indexOf?
        split
        · next hp =>
          exact absurd (isPrefixOf_of_take p (c :: t) (n' + 1) hp) (by simp [hpre])
        · simp only [List.take_succ_cons]
          rw [ih p n' ht]
          rfl

theorem includesL_jsSubstring_swap_false (s : List Char) (a b : Int) (p : List Char)
    (hb : 0 ≤ b) (hab : b ≤ a)
    (h : indexOf? (jsSubstringFrom s b) p = none) :
    includesL (jsSubstring s a b) p = false := by
  unfold jsSubstringFrom at h
  unfold jsSubstring at h ⊢
  unfold includesL
  have hlen : (0 : Int) ≤ (s.length : Int) := Int.natCast_nonneg _
  have e1 : max b 0 = b := max_eq_left hb
  have e2 : max a 0 = a := max_eq_left (le_trans hb hab)
  have e3 : max (s.length : Int) 0 = (s.length : Int) := max_eq_left hlen
  simp only [e1, e2, e3, min_self] at h ⊢
  -- h now about drop/take of min b len etc.
  have e4 : min (min b (s.length : Int)) (s.length : Int) = min b (s.length : Int) := by omega
  have e5 : max (min b (s.length : Int)) (s.length : Int) = (s.length : Int) := by omega
  rw [e4, e5] at h
  have e6 : min (min a (s.length : Int)) (min b (s.length : Int)) = min b (s.length : Int) := by omega
  have e7 : max (min a (s.length : Int)) (min b (s.length : Int)) = min a (s.length : Int) := by omega
  rw [e6, e7]
  have e8 : ((s.length : Int) - min b (s.length : Int)).toNat =
      (s.drop (min b (s.length : Int)).toNat).length := by
    simp only [List.length_drop]
    omega
  rw [e8, List.take_length] at h
  rw [indexOf?_take_none _ _ _ h]
  rfl

theorem crossBlockBoundaries_start_fallback (xml : List Char)
    (firstTNode lastTNode : TextNode)
    (h1 : lastIndexOf? (jsSubstring xml 0 firstTNode.startIndex) "<w:r>".data = none) :
    (crossBlockBoundaries xml firstTNode lastTNode).1 = (firstTNode.startIndex : Int) := by
  unfold crossBlockBoundaries
  simp only [h1]
  split <;> rfl

theorem crossBlockBoundaries_end_fallback (xml : List Char)
    (firstTNode lastTNode : TextNode)
    (h2 : indexOf? (jsSubstringFrom xml lastTNode.endIndex) "</w:r>".data = none) :
    (crossBlockBoundaries xml firstTNode lastTNode).2 = (lastTNode.endIndex : Int) + 6 := by
  unfold crossBlockBoundaries
  have hfalse : includesL
      (jsSubstring xml ((lastTNode.endIndex : Int) + (0 : Nat) + 6) lastTNode.endIndex)
      "</w:r>".data = false := by
    refine includesL_jsSubstring_swap_false _ _ _ _ (Int.natCast_nonneg _) (by omega) h2
  simp only [h2, hfalse, Bool.and_false, Bool.false_eq_true, if_false]
  norm_num

/-- C8: for a multi-fragment match (`tSpan ≠ 1`), each boundary lookup
degrades independently: if no block-opening marker `<w:r>` occurs
before the first spanned fragment's start, the block start used is that
fragment's own start offset (whatever the closer side finds); if no
block-closing marker `</w:r>` occurs after the last spanned fragment's
end, the missing closer's position is taken to be that fragment's own
end, so the block ends the closer's width, 6, past it (whatever the
opener side finds); and in every case the splicer still returns the
spliced output string built from the computed block — it produces
output rather than failing. -/
theorem performCrossTagReplace_fallback (xml : List Char) (textNodes : List TextNode)
    (startIndex : Nat) (tSpan offsetInFirstNode : Int) (original replacement : List Char)
    (hspan : tSpan ≠ 1) :
    (lastIndexOf?
        (jsSubstring xml 0 (textNodes.getD startIndex emptyTextNode).startIndex)
        "<w:r>".data = none →
      (crossBlockBoundaries xml (textNodes.getD startIndex emptyTextNode)
          (textNodes.getD ((startIndex : Int) + tSpan - 1).toNat emptyTextNode)).1 =
        ((textNodes.getD startIndex emptyTextNode).startIndex : Int)) ∧
    (indexOf?
        (jsSubstringFrom xml
          (textNodes.getD ((startIndex : Int) + tSpan - 1).toNat emptyTextNode).endIndex)
        "</w:r>".data = none →
      (crossBlockBoundaries xml (textNodes.getD startIndex emptyTextNode)
          (textNodes.getD ((startIndex : Int) + tSpan - 1).toNat emptyTextNode)).2 =
        ((textNodes.getD ((startIndex : Int) + tSpan - 1).toNat emptyTextNode).endIndex : Int) + 6) ∧
    performCrossTagReplace xml textNodes startIndex tSpan offsetInFirstNode
        original replacement =
      jsSubstring xml 0
        (crossBlockBoundaries xml (textNodes.getD startIndex emptyTextNode)
          (textNodes.getD ((startIndex : Int) + tSpan - 1).toNat emptyTextNode)).1 ++
      rewriteTargetLeaves
        (jsSubstring xml
          (crossBlockBoundaries xml (textNodes.getD startIndex emptyTextNode)
            (textNodes.getD ((startIndex : Int) + tSpan - 1).toNat emptyTextNode)).1
          (crossBlockBoundaries xml (textNodes.getD startIndex emptyTextNode)
            (textNodes.getD ((startIndex : Int) + tSpan - 1).toNat emptyTextNode)).2)
        (crossBlockBoundaries xml (textNodes.getD startIndex emptyTextNode)
          (textNodes.getD ((startIndex : Int) + tSpan - 1).toNat emptyTextNode)).1
        (textNodes.getD startIndex emptyTextNode)
        (textNodes.getD ((startIndex : Int) + tSpan - 1).toNat emptyTextNode)
        tSpan offsetInFirstNode replacement ++
      jsSubstringFrom xml
        (crossBlockBoundaries xml (textNodes.getD startIndex emptyTextNode)
          (textNodes.getD ((startIndex : Int) + tSpan - 1).toNat emptyTextNode)).2 := by
  refine ⟨fun h1 => crossBlockBoundaries_start_fallback xml _ _ h1,
    fun h2 => crossBlockBoundaries_end_fallback xml _ _ h2, ?_⟩
  unfold performCrossTagReplace
  rw [if_neg hspan]

/-- C8, witness: the markup `<w:t>a</w:t><w:t>b</w:t>` contains no run
markers at all, so for the span-2 match of `ab` both one-sided
antecedents hold and both fallbacks fire. -/
theorem performCrossTagReplace_fallback_witness :
    ((2 : Int) ≠ 1) ∧
    lastIndexOf?
      (jsSubstring "<w:t>a</w:t><w:t>b</w:t>".data 0
        (((tTagExecAll "<w:t>a</w:t><w:t>b</w:t>".data 0).getD 0 emptyTextNode).startIndex))
      "<w:r>".data = none ∧
    indexOf?
      (jsSubstringFrom "<w:t>a</w:t><w:t>b</w:t>".data
        (((tTagExecAll "<w:t>a</w:t><w:t>b</w:t>".data 0).getD
          (((0 : Nat) : Int) + 2 - 1).toNat emptyTextNode).endIndex))
      "</w:r>".data = none ∧
    ((lastIndexOf?
        (jsSubstring "<w:t>a</w:t><w:t>b</w:t>".data 0
          (((tTagExecAll "<w:t>a</w:t><w:t>b</w:t>".data 0).getD 0 emptyTextNode).startIndex))
        "<w:r>".data = none →
      (crossBlockBoundaries "<w:t>a</w:t><w:t>b</w:t>".data
          ((tTagExecAll "<w:t>a</w:t><w:t>b</w:t>".data 0).getD 0 emptyTextNode)
          ((tTagExecAll "<w:t>a</w:t><w:t>b</w:t>".data 0).getD
            (((0 : Nat) : Int) + 2 - 1).toNat emptyTextNode)).1 =
        ((((tTagExecAll "<w:t>a</w:t><w:t>b</w:t>".data 0).getD 0
          emptyTextNode).startIndex : Nat) : Int)) ∧
    (indexOf?
        (jsSubstringFrom "<w:t>a</w:t><w:t>b</w:t>".data
          (((tTagExecAll "<w:t>a</w:t><w:t>b</w:t>".data 0).getD
            (((0 : Nat) : Int) + 2 - 1).toNat emptyTextNode).endIndex))
        "</w:r>".data = none →
      (crossBlockBoundaries "<w:t>a</w:t><w:t>b</w:t>".data
          ((tTagExecAll "<w:t>a</w:t><w:t>b</w:t>".data 0).getD 0 emptyTextNode)
          ((tTagExecAll "<w:t>a</w:t><w:t>b</w:t>".data 0).getD
            (((0 : Nat) : Int) + 2 - 1).toNat emptyTextNode)).2 =
        ((((tTagExecAll "<w:t>a</w:t><w:t>b</w:t>".data 0).getD
          (((0 : Nat) : Int) + 2 - 1).toNat emptyTextNode).endIndex : Nat) : Int) + 6) ∧
    performCrossTagReplace "<w:t>a</w:t><w:t>b</w:t>".data
        (tTagExecAll "<w:t>a</w:t><w:t>b</w:t>".data 0) 0 2 0 "ab".data "R".data =
      jsSubstring "<w:t>a</w:t><w:t>b</w:t>".data 0
        (crossBlockBoundaries "<w:t>a</w:t><w:t>b</w:t>".data
          ((tTagExecAll "<w:t>a</w:t><w:t>b</w:t>".data 0).getD 0 emptyTextNode)
          ((tTagExecAll "<w:t>a</w:t><w:t>b</w:t>".data 0).getD
            (((0 : Nat) : Int) + 2 - 1).toNat emptyTextNode)).1 ++
      rewriteTargetLeaves
        (jsSubstring "<w:t>a</w:t><w:t>b</w:t>".data
          (crossBlockBoundaries "<w:t>a</w:t><w:t>b</w:t>".data
            ((tTagExecAll "<w:t>a</w:t><w:t>b</w:t>".data 0).getD 0 emptyTextNode)
            ((tTagExecAll "<w:t>a</w:t><w:t>b</w:t>".data 0).getD
              (((0 : Nat) : Int) + 2 - 1).toNat emptyTextNode)).1
          (crossBlockBoundaries "<w:t>a</w:t><w:t>b</w:t>".data
            ((tTagExecAll "<w:t>a</w:t><w:t>b</w:t>".data 0).getD 0 emptyTextNode)
            ((tTagExecAll "<w:t>a</w:t><w:t>b</w:t>".data 0).getD
              (((0 : Nat) : Int) + 2 - 1).toNat emptyTextNode)).2)
        (crossBlockBoundaries "<w:t>a</w:t><w:t>b</w:t>".data
          ((tTagExecAll "<w:t>a</w:t><w:t>b</w:t>".data 0).getD 0 emptyTextNode)
          ((tTagExecAll "<w:t>a</w:t><w:t>b</w:t>".data 0).getD
            (((0 : Nat) : Int) + 2 - 1).toNat emptyTextNode)).1
        ((tTagExecAll "<w:t>a</w:t><w:t>b</w:t>".data 0).getD 0 emptyTextNode)
        ((tTagExecAll "<w:t>a</w:t><w:t>b</w:t>".data 0).getD
          (((0 : Nat) : Int) + 2 - 1).toNat emptyTextNode)
        2 0 "R".data ++
      jsSubstringFrom "<w:t>a</w:t><w:t>b</w:t>".data
        (crossBlockBoundaries "<w:t>a</w:t><w:t>b</w:t>".data
          ((tTagExecAll "<w:t>a</w:t><w:t>b</w:t>".data 0).getD 0 emptyTextNode)
          ((tTagExecAll "<w:t>a</w:t><w:t>b</w:t>".data 0).getD
            (((0 : Nat) : Int) + 2 - 1).toNat emptyTextNode)).2) :=
  ⟨by decide, by decide, by decide,
    performCrossTagReplace_fallback "<w:t>a</w:t><w:t>b</w:t>".data
      (tTagExecAll "<w:t>a</w:t><w:t>b</w:t>".data 0) 0 2 0 "ab".data "R".data
      (by decide)⟩
